import Mathlib

/-!
Verification of the apex-ai cycle/run orchestration core.

This file gives a shallow embedding, in Lean 4, of the parts of the
repository that the specification's testable properties talk about:

* `updatePortfolio`, `validateDecision`, `executeTrade` and the agentic
  retry loop of `processModel` (src/lib/services/trading-engine.ts);
* the decision-provider retry loop of `ModelManager.getModelDecision`
  (src/lib/services/model-manager.ts);
* `calculateTotalValue` / `resolvePriceMap`
  (src/lib/services/portfolio-calculator.ts);
* the backtest run loop `runBacktestLive` (src/lib/backtest/runner.ts);
* the Zod response schema and `parseTradeDecision`
  (src/lib/llm/response-parser.ts, TradeDecisionSchema).

Money and prices are modelled as rationals (the source uses JS numbers),
share counts as integers, and external collaborators (broker gateway,
market-data fetch, decision provider) as explicit oracle parameters.
Database rows become fields of pure state records; a prisma `update` /
`create` / `delete` on a position becomes replacement / append / removal
of the first position with the matching ticker in the position list.
-/

namespace Apex

/-- Trade action, from the Zod enum `z.enum(['BUY', 'SELL', 'HOLD'])`. -/
inductive TradeAction
  | BUY
  | SELL
  | HOLD
deriving DecidableEq, Repr

/-- A trade decision as produced by the response parser
(`TradeDecisionSchema` plus the ts type `TradeDecision`): `leverage`
is optional in the schema, hence an `Option`. -/
structure TradeDecision where
  action : TradeAction
  ticker : Option String
  shares : Int
  reasoning : String
  leverage : Option Int
deriving DecidableEq, Repr

/-- A position row: ticker, share count, average cost basis. -/
structure Position where
  ticker : String
  shares : Int
  avgCost : ℚ
deriving DecidableEq, Repr

/-- A portfolio (the spec's Ledger): cash balance, initial capital and
the list of position rows. -/
structure Portfolio where
  cashBalance : ℚ
  initialValue : ℚ
  positions : List Position
deriving DecidableEq, Repr

/-- `portfolio.positions.find(p => p.ticker === decision.ticker)`:
first position whose ticker equals the decision's ticker. -/
def findPosition (positions : List Position) (ticker : Option String) :
    Option Position :=
  positions.find? (fun p => some p.ticker = ticker)

/-- Replace the first position with the given ticker (a prisma
`position.update` keyed by the id of the row that `find` returned). -/
def updateFirstPosition (ticker : Option String) (f : Position → Position) :
    List Position → List Position
  | [] => []
  | p :: rest =>
    if some p.ticker = ticker then f p :: rest
    else p :: updateFirstPosition ticker f rest

/-- Delete the first position with the given ticker (a prisma
`position.delete` keyed by the id of the row that `find` returned). -/
def removeFirstPosition (ticker : Option String) :
    List Position → List Position
  | [] => []
  | p :: rest =>
    if some p.ticker = ticker then rest
    else p :: removeFirstPosition ticker rest

/-- `TradingEngine.updatePortfolio` (trading-engine.ts lines 883-962):
apply a FILLED trade's effect to the portfolio.  BUY decrements cash by
`filledPrice * shares` and creates the position on first BUY or updates
it to the weighted-average cost; SELL increments cash by
`filledPrice * shares` and reduces the position, deleting it when the
whole position is sold. -/
def updatePortfolio (pf : Portfolio) (d : TradeDecision) (filledPrice : ℚ) :
    Portfolio :=
  let totalValue := filledPrice * (d.shares : ℚ)
  let pf1 :=
    if d.action = .BUY then
      let cashed := { pf with cashBalance := pf.cashBalance - totalValue }
      match findPosition pf.positions d.ticker with
      | some existingPosition =>
        let newShares := existingPosition.shares + d.shares
        let newAvgCost :=
          (existingPosition.avgCost * (existingPosition.shares : ℚ) +
            filledPrice * (d.shares : ℚ)) / (newShares : ℚ)
        { cashed with
          positions := updateFirstPosition d.ticker
            (fun p => { p with shares := newShares, avgCost := newAvgCost })
            pf.positions }
      | none =>
        { cashed with
          positions := pf.positions ++
            [{ ticker := d.ticker.getD "", shares := d.shares,
               avgCost := filledPrice }] }
    else pf
  if d.action = .SELL then
    let cashed := { pf1 with cashBalance := pf1.cashBalance + totalValue }
    match findPosition pf1.positions d.ticker with
    | some position =>
      if position.shares = d.shares then
        { cashed with positions := removeFirstPosition d.ticker pf1.positions }
      else
        { cashed with
          positions := updateFirstPosition d.ticker
            (fun p => { p with shares := p.shares - d.shares })
            pf1.positions }
    | none => cashed
  else pf1

/-- C1: for a FILLED BUY of `s` shares at fill price `p`, cash drops by
`s * p` and the position is created (`shares = s`, `avgCost = p`) on a
first BUY, or updated to `shares = old + s` with the weighted-average
cost on a subsequent BUY; for a FILLED SELL of `s` shares at price `p`,
cash rises by `s * p`, `avgCost` is unchanged, the position's shares
drop by `s`, and the position is deleted when `s` equals the held
shares. -/
theorem ledger_update_postcondition
    (pf : Portfolio) (d : TradeDecision) (tk : String) (p : ℚ)
    (htk : d.ticker = some tk) :
    (d.action = .BUY → findPosition pf.positions d.ticker = none →
      updatePortfolio pf d p =
        { pf with
          cashBalance := pf.cashBalance - p * (d.shares : ℚ),
          positions := pf.positions ++
            [{ ticker := tk, shares := d.shares, avgCost := p }] }) ∧
    (∀ ex, d.action = .BUY → findPosition pf.positions d.ticker = some ex →
      updatePortfolio pf d p =
        { pf with
          cashBalance := pf.cashBalance - p * (d.shares : ℚ),
          positions := updateFirstPosition d.ticker
            (fun q => { q with
              shares := ex.shares + d.shares,
              avgCost := (ex.avgCost * (ex.shares : ℚ) + p * (d.shares : ℚ)) /
                ((ex.shares + d.shares : Int) : ℚ) })
            pf.positions }) ∧
    (∀ ex, d.action = .SELL → findPosition pf.positions d.ticker = some ex →
      ex.shares = d.shares →
      updatePortfolio pf d p =
        { pf with
          cashBalance := pf.cashBalance + p * (d.shares : ℚ),
          positions := removeFirstPosition d.ticker pf.positions }) ∧
    (∀ ex, d.action = .SELL → findPosition pf.positions d.ticker = some ex →
      ex.shares ≠ d.shares →
      updatePortfolio pf d p =
        { pf with
          cashBalance := pf.cashBalance + p * (d.shares : ℚ),
          positions := updateFirstPosition d.ticker
            (fun q => { q with shares := q.shares - d.shares })
            pf.positions }) := by
  refine ⟨?_, ?_, ?_, ?_⟩
  · intro hact hfind
    rw [htk] at hfind
    simp [updatePortfolio, hact, hfind, htk, mul_comm]
  · intro ex hact hfind
    rw [htk] at hfind
    simp [updatePortfolio, hact, hfind, htk, mul_comm]
  · intro ex hact hfind hsh
    simp [updatePortfolio, hact, hfind, hsh, mul_comm]
  · intro ex hact hfind hsh
    simp [updatePortfolio, hact, hfind, hsh, mul_comm]

/-- The spec's concrete scenario for C1: cash 100000, BUY 10 @ 2450
gives cash 75500 and position (10 shares, avgCost 2450); then SELL 5 @
2500 gives cash 88000 and position (5 shares, avgCost 2450). -/
theorem ledger_update_postcondition_witness :
    updatePortfolio { cashBalance := 100000, initialValue := 100000, positions := [] }
        { action := .BUY, ticker := some "RELIANCE", shares := 10,
          reasoning := "buy", leverage := none } 2450 =
      { cashBalance := 75500, initialValue := 100000,
        positions := [{ ticker := "RELIANCE", shares := 10, avgCost := 2450 }] } ∧
    updatePortfolio
        { cashBalance := 75500, initialValue := 100000,
          positions := [{ ticker := "RELIANCE", shares := 10, avgCost := 2450 }] }
        { action := .SELL, ticker := some "RELIANCE", shares := 5,
          reasoning := "sell", leverage := none } 2500 =
      { cashBalance := 88000, initialValue := 100000,
        positions := [{ ticker := "RELIANCE", shares := 5, avgCost := 2450 }] } := by
  constructor
  · have h := (ledger_update_postcondition
      { cashBalance := 100000, initialValue := 100000, positions := [] }
      { action := .BUY, ticker := some "RELIANCE", shares := 10,
        reasoning := "buy", leverage := none } "RELIANCE" 2450 rfl).1 rfl (by decide)
    rw [h]
    norm_num [updateFirstPosition]
  · have h := (ledger_update_postcondition
      { cashBalance := 75500, initialValue := 100000,
        positions := [{ ticker := "RELIANCE", shares := 10, avgCost := 2450 }] }
      { action := .SELL, ticker := some "RELIANCE", shares := 5,
        reasoning := "sell", leverage := none } "RELIANCE" 2500 rfl).2.2.2
      { ticker := "RELIANCE", shares := 10, avgCost := 2450 }
      rfl (by decide) (by decide)
    rw [h]
    norm_num [updateFirstPosition]

/-- The agent-level risk configuration (`model.config`): watchlist and
max position-size fraction. -/
structure ModelConfig where
  watchlist : List String
  maxPositionSize : ℚ
deriving DecidableEq, Repr

/-- Result of `TradingEngine.validateDecision`:
`{ isValid: boolean; reason?: string }`. -/
structure ValidationResult where
  isValid : Bool
  reason : Option String
deriving DecidableEq, Repr

/-- The fixed leverage tiers of trading-engine.ts line 772:
`const allowedLeverages = [1, 5, 10, 20]`. -/
def allowedLeverages : List Int := [1, 5, 10, 20]

/-- `TradingEngine.validateDecision` (trading-engine.ts lines 734-818).
The prisma model lookup becomes the `config`/`pf` parameters, the
broker-service price lookup becomes the `getCurrentPrice` oracle, and
the portfolio-calculator valuation becomes `portfolioTotalValue`.
Numeric formatting inside the reason strings is elided; each rule keeps
its own distinct reason. -/
def validateDecision (config : ModelConfig) (pf : Portfolio)
    (getCurrentPrice : String → ℚ) (portfolioTotalValue : ℚ)
    (d : TradeDecision) : ValidationResult :=
  if d.action = .HOLD then { isValid := true, reason := none }
  else
    match d.ticker with
    | none => { isValid := false, reason := some "Ticker is required for BUY/SELL" }
    | some tk =>
      if tk ∉ config.watchlist then
        { isValid := false, reason := some (tk ++ " not in watchlist") }
      else if d.shares ≤ 0 then
        { isValid := false, reason := some "Shares must be greater than 0" }
      else if d.action = .BUY then
        let leverage := d.leverage.getD 1
        if leverage ∉ allowedLeverages then
          { isValid := false, reason := some "Invalid leverage. Allowed: 1, 5, 10, 20" }
        else
          let currentPrice := getCurrentPrice tk
          let totalCost := currentPrice * (d.shares : ℚ)
          let maxBorrow := ((leverage : ℚ) - 1) * pf.initialValue
          let newCash := pf.cashBalance - totalCost
          if newCash < -maxBorrow then
            { isValid := false,
              reason := some "Insufficient margin: borrowing exceeds limit" }
          else
            let positionPct := totalCost / portfolioTotalValue
            if positionPct > config.maxPositionSize then
              { isValid := false, reason := some "Position size exceeds limit" }
            else { isValid := true, reason := none }
      else
        match findPosition pf.positions d.ticker with
        | none => { isValid := false, reason := some ("No position in " ++ tk ++ " to sell") }
        | some position =>
          if position.shares < d.shares then
            { isValid := false, reason := some "Insufficient shares" }
          else { isValid := true, reason := none }

/-- Shares held in the given ticker (0 when no position row exists). -/
def ownedShares (pf : Portfolio) (tk : String) : Int :=
  match findPosition pf.positions (some tk) with
  | some position => position.shares
  | none => 0

/-- C2: a BUY decision (ticker in the watchlist, positive shares) is
rejected when the chosen leverage (defaulting to 1) is not an allowed
tier, or when post-trade cash `cash - price * shares` is strictly below
`-(leverage - 1) * initialCapital`, or when the trade notional divided
by the current total valuation strictly exceeds the max position-size
fraction; it is accepted when all three checks pass.  The total
valuation is assumed positive (the JS division is by a plain number). -/
theorem buy_validation_rules
    (config : ModelConfig) (pf : Portfolio) (getCurrentPrice : String → ℚ)
    (portfolioTotalValue : ℚ) (d : TradeDecision) (tk : String)
    (hact : d.action = .BUY) (htk : d.ticker = some tk)
    (hwl : tk ∈ config.watchlist) (hsh : 0 < d.shares)
    (_htv : 0 < portfolioTotalValue) :
    (d.leverage.getD 1 ∉ allowedLeverages →
      (validateDecision config pf getCurrentPrice portfolioTotalValue d).isValid = false) ∧
    (d.leverage.getD 1 ∈ allowedLeverages →
      pf.cashBalance - getCurrentPrice tk * (d.shares : ℚ) <
        -(((d.leverage.getD 1 : ℚ) - 1) * pf.initialValue) →
      (validateDecision config pf getCurrentPrice portfolioTotalValue d).isValid = false) ∧
    (d.leverage.getD 1 ∈ allowedLeverages →
      ¬(pf.cashBalance - getCurrentPrice tk * (d.shares : ℚ) <
        -(((d.leverage.getD 1 : ℚ) - 1) * pf.initialValue)) →
      getCurrentPrice tk * (d.shares : ℚ) / portfolioTotalValue > config.maxPositionSize →
      (validateDecision config pf getCurrentPrice portfolioTotalValue d).isValid = false) ∧
    (d.leverage.getD 1 ∈ allowedLeverages →
      ¬(pf.cashBalance - getCurrentPrice tk * (d.shares : ℚ) <
        -(((d.leverage.getD 1 : ℚ) - 1) * pf.initialValue)) →
      ¬(getCurrentPrice tk * (d.shares : ℚ) / portfolioTotalValue > config.maxPositionSize) →
      (validateDecision config pf getCurrentPrice portfolioTotalValue d).isValid = true) := by
  have hns : ¬ d.shares ≤ 0 := not_le.mpr hsh
  have hh : d.action ≠ .HOLD := by rw [hact]; intro h; cases h
  refine ⟨?_, ?_, ?_, ?_⟩
  · intro hlev
    simp [validateDecision, hact, htk, hwl, hns, hlev]
  · intro hlev hmargin
    simp [validateDecision, hact, htk, hwl, hns, hlev, hmargin]
  · intro hlev hmargin hpct
    simp [validateDecision, hact, htk, hwl, hns, hlev, hmargin, hpct]
  · intro hlev hmargin hpct
    simp [validateDecision, hact, htk, hwl, hns, hlev, hmargin, hpct]

/-- Witness for C2: with cash 100000, initial capital 100000, price
2000, 10 shares, leverage defaulted to 1 and a 30% cap against a total
valuation of 100000, the BUY passes all three checks. -/
theorem buy_validation_rules_witness :
    (validateDecision { watchlist := ["RELIANCE"], maxPositionSize := 3/10 }
      { cashBalance := 100000, initialValue := 100000, positions := [] }
      (fun _ => 2000) 100000
      { action := .BUY, ticker := some "RELIANCE", shares := 10,
        reasoning := "r", leverage := none }).isValid = true := by
  have h := (buy_validation_rules
    { watchlist := ["RELIANCE"], maxPositionSize := 3/10 }
    { cashBalance := 100000, initialValue := 100000, positions := [] }
    (fun _ => 2000) 100000
    { action := .BUY, ticker := some "RELIANCE", shares := 10,
      reasoning := "r", leverage := none }
    "RELIANCE" rfl rfl (by decide) (by decide) (by norm_num)).2.2.2
  exact h (by decide) (by norm_num) (by norm_num)

/-- C3: the validator's rules fire in order with the first failure
determining the reason: HOLD is always accepted; a non-HOLD decision
without a ticker is rejected; a ticker outside the watchlist is
rejected (even when the later shares rule would also fail); non-positive
shares are rejected once the watchlist rule passed; and a SELL whose
requested shares exceed the held shares is rejected for all inputs. -/
theorem validation_rule_order
    (config : ModelConfig) (pf : Portfolio) (getCurrentPrice : String → ℚ)
    (portfolioTotalValue : ℚ) (d : TradeDecision) :
    (d.action = .HOLD →
      validateDecision config pf getCurrentPrice portfolioTotalValue d =
        { isValid := true, reason := none }) ∧
    (d.action ≠ .HOLD → d.ticker = none →
      validateDecision config pf getCurrentPrice portfolioTotalValue d =
        { isValid := false, reason := some "Ticker is required for BUY/SELL" }) ∧
    (∀ tk, d.action ≠ .HOLD → d.ticker = some tk → tk ∉ config.watchlist →
      validateDecision config pf getCurrentPrice portfolioTotalValue d =
        { isValid := false, reason := some (tk ++ " not in watchlist") }) ∧
    (∀ tk, d.action ≠ .HOLD → d.ticker = some tk → tk ∈ config.watchlist →
      d.shares ≤ 0 →
      validateDecision config pf getCurrentPrice portfolioTotalValue d =
        { isValid := false, reason := some "Shares must be greater than 0" }) ∧
    (∀ tk, d.action = .SELL → d.ticker = some tk →
      ownedShares pf tk < d.shares →
      (validateDecision config pf getCurrentPrice portfolioTotalValue d).isValid =
        false) := by
  refine ⟨?_, ?_, ?_, ?_, ?_⟩
  · intro hact
    simp [validateDecision, hact]
  · intro hact htk
    simp [validateDecision, hact, htk]
  · intro tk hact htk hwl
    simp [validateDecision, hact, htk, hwl]
  · intro tk hact htk hwl hsh
    simp [validateDecision, hact, htk, hwl, hsh]
  · intro tk hact htk howned
    by_cases hwl : tk ∈ config.watchlist
    · by_cases hsh : d.shares ≤ 0
      · simp [validateDecision, hact, htk, hwl, hsh]
      · unfold ownedShares at howned
        cases hfind : findPosition pf.positions (some tk) with
        | none => simp [validateDecision, hact, htk, hwl, hsh, hfind]
        | some pos =>
          rw [hfind] at howned
          simp [validateDecision, hact, htk, hwl, hsh, hfind, howned]
    · simp [validateDecision, hact, htk, hwl]

/-- Witness for C3: a SELL of 5 shares with no position held is
rejected; a HOLD against the same state is accepted. -/
theorem validation_rule_order_witness :
    (validateDecision { watchlist := ["RELIANCE"], maxPositionSize := 3/10 }
      { cashBalance := 100000, initialValue := 100000, positions := [] }
      (fun _ => 2000) 100000
      { action := .SELL, ticker := some "RELIANCE", shares := 5,
        reasoning := "r", leverage := none }).isValid = false ∧
    validateDecision { watchlist := ["RELIANCE"], maxPositionSize := 3/10 }
      { cashBalance := 100000, initialValue := 100000, positions := [] }
      (fun _ => 2000) 100000
      { action := .HOLD, ticker := none, shares := 0,
        reasoning := "r", leverage := none } =
      { isValid := true, reason := none } := by
  constructor
  · exact (validation_rule_order
      { watchlist := ["RELIANCE"], maxPositionSize := 3/10 }
      { cashBalance := 100000, initialValue := 100000, positions := [] }
      (fun _ => 2000) 100000
      { action := .SELL, ticker := some "RELIANCE", shares := 5,
        reasoning := "r", leverage := none }).2.2.2.2
      "RELIANCE" rfl rfl (by decide)
  · exact (validation_rule_order
      { watchlist := ["RELIANCE"], maxPositionSize := 3/10 }
      { cashBalance := 100000, initialValue := 100000, positions := [] }
      (fun _ => 2000) 100000
      { action := .HOLD, ticker := none, shares := 0,
        reasoning := "r", leverage := none }).1 rfl

/-- Terminal status of a Trade row. -/
inductive TradeStatus
  | PENDING
  | FILLED
  | REJECTED
deriving DecidableEq, Repr

/-- `BrokerOrderResult`: `{orderId, status, filledPrice?}`; `status`
is a plain string in the source (`'COMPLETE'`, `'REJECTED'`, ...). -/
structure BrokerOrderResult where
  orderId : String
  status : String
  filledPrice : Option ℚ
deriving DecidableEq, Repr

/-- JS truthiness of the optional `filledPrice` number: present and
non-zero (`NaN` has no rational counterpart). -/
def priceTruthy : Option ℚ → Bool
  | some p => p ≠ 0
  | none => false

/-- Outcome of `TradingEngine.executeTrade`: the terminal status written
to the Trade row, whether the gateway error was rethrown, the resulting
portfolio, and the fill price the method returned. -/
structure ExecResult where
  tradeStatus : TradeStatus
  threw : Bool
  portfolio : Portfolio
  filledPrice : Option ℚ
deriving DecidableEq, Repr

/-- `TradingEngine.executeTrade` (trading-engine.ts lines 823-878).  A
PENDING Trade row is created, the order goes to the broker gateway
(modelled by `submitOrder`, an `Except` to cover a thrown error); on a
COMPLETE status with a truthy fill price the portfolio is updated via
`updatePortfolio`, otherwise the portfolio is untouched; a gateway
throw marks the Trade REJECTED and rethrows. -/
def executeTrade (pf : Portfolio) (d : TradeDecision)
    (submitOrder : Except String BrokerOrderResult) : ExecResult :=
  match submitOrder with
  | .error _ =>
    { tradeStatus := .REJECTED, threw := true, portfolio := pf,
      filledPrice := none }
  | .ok result =>
    let tradeStatus : TradeStatus :=
      if result.status = "COMPLETE" then .FILLED else .REJECTED
    if result.status = "COMPLETE" ∧ priceTruthy result.filledPrice then
      { tradeStatus := tradeStatus, threw := false,
        portfolio := updatePortfolio pf d (result.filledPrice.getD 0),
        filledPrice := result.filledPrice }
    else
      { tradeStatus := tradeStatus, threw := false, portfolio := pf,
        filledPrice := none }

/-- C4: a gateway throw or a non-COMPLETE status marks the Trade
REJECTED and leaves the portfolio exactly unchanged; the portfolio
changes only when the gateway confirmed a COMPLETE fill, and then it is
exactly the post-fill portfolio — never a speculative update. -/
theorem execution_failure_leaves_ledger
    (pf : Portfolio) (d : TradeDecision)
    (submitOrder : Except String BrokerOrderResult) :
    (∀ e, submitOrder = .error e →
      (executeTrade pf d submitOrder).tradeStatus = .REJECTED ∧
      (executeTrade pf d submitOrder).portfolio = pf) ∧
    (∀ r, submitOrder = .ok r → r.status ≠ "COMPLETE" →
      (executeTrade pf d submitOrder).tradeStatus = .REJECTED ∧
      (executeTrade pf d submitOrder).portfolio = pf) ∧
    ((executeTrade pf d submitOrder).portfolio ≠ pf →
      ∃ r p, submitOrder = .ok r ∧ r.status = "COMPLETE" ∧
        r.filledPrice = some p ∧ p ≠ 0 ∧
        (executeTrade pf d submitOrder).portfolio = updatePortfolio pf d p) := by
  refine ⟨?_, ?_, ?_⟩
  · intro e he
    simp [executeTrade, he]
  · intro r hr hst
    simp [executeTrade, hr, hst]
  · intro hchanged
    match hsub : submitOrder with
    | .error e => simp [executeTrade, hsub] at hchanged
    | .ok r =>
      by_cases hc : r.status = "COMPLETE" ∧ priceTruthy r.filledPrice
      · refine ⟨r, r.filledPrice.getD 0, rfl, hc.1, ?_, ?_, ?_⟩
        · have := hc.2
          cases hp : r.filledPrice with
          | none => rw [hp] at this; simp [priceTruthy] at this
          | some p => rfl
        · have := hc.2
          cases hp : r.filledPrice with
          | none => rw [hp] at this; simp [priceTruthy] at this
          | some p => rw [hp] at this; simpa [priceTruthy] using this
        · simp [executeTrade, hc]
      · simp [executeTrade, hc] at hchanged

/-- Witness for C4: a gateway throw and a REJECTED status both leave a
concrete portfolio unchanged, and a COMPLETE fill changes it. -/
theorem execution_failure_leaves_ledger_witness :
    (executeTrade { cashBalance := 100000, initialValue := 100000, positions := [] }
      { action := .BUY, ticker := some "RELIANCE", shares := 10,
        reasoning := "r", leverage := none }
      (.error "gateway down")).portfolio =
      { cashBalance := 100000, initialValue := 100000, positions := [] } ∧
    (executeTrade { cashBalance := 100000, initialValue := 100000, positions := [] }
      { action := .BUY, ticker := some "RELIANCE", shares := 10,
        reasoning := "r", leverage := none }
      (.ok { orderId := "o1", status := "REJECTED", filledPrice := none })).tradeStatus =
      .REJECTED := by
  constructor
  · exact ((execution_failure_leaves_ledger
      { cashBalance := 100000, initialValue := 100000, positions := [] }
      { action := .BUY, ticker := some "RELIANCE", shares := 10,
        reasoning := "r", leverage := none }
      (.error "gateway down")).1 "gateway down" rfl).2
  · exact ((execution_failure_leaves_ledger
      { cashBalance := 100000, initialValue := 100000, positions := [] }
      { action := .BUY, ticker := some "RELIANCE", shares := 10,
        reasoning := "r", leverage := none }
      (.ok { orderId := "o1", status := "REJECTED", filledPrice := none })).2.1
      { orderId := "o1", status := "REJECTED", filledPrice := none }
      rfl (by decide)).1

/-- One attempt of the agentic loop in `TradingEngine.processModel`:
the feedback and previous decision passed to `getModelDecision`, the
decision that came back, and its validation result. -/
structure Attempt where
  feedback : Option String
  decision : TradeDecision
  result : ValidationResult
deriving DecidableEq, Repr

/-- `const maxAttempts = 3` of trading-engine.ts line 590. -/
def maxAttempts : Nat := 3

/-- The `while (attempt <= maxAttempts)` loop of
`TradingEngine.processModel` (trading-engine.ts lines 589-644), with
the remaining attempt budget as fuel.  `getDecision` is the decision
oracle (`modelManager.getModelDecision` applied to the feedback and
previous decision) and `validate` the validator; each iteration asks
for a decision, validates it, exits on acceptance and otherwise feeds
the rejection reason into the next iteration. -/
def agenticLoopAux
    (getDecision : Option String → Option TradeDecision → TradeDecision)
    (validate : TradeDecision → ValidationResult) :
    Nat → Option String → Option TradeDecision → List Attempt
  | 0, _, _ => []
  | fuel + 1, feedback, previousDecision =>
    let decision := getDecision feedback previousDecision
    let validation := validate decision
    if validation.isValid then
      [{ feedback := feedback, decision := decision, result := validation }]
    else
      { feedback := feedback, decision := decision, result := validation } ::
        agenticLoopAux getDecision validate fuel validation.reason (some decision)

/-- The attempts actually performed by one `processModel` call. -/
def agenticAttempts
    (getDecision : Option String → Option TradeDecision → TradeDecision)
    (validate : TradeDecision → ValidationResult) : List Attempt :=
  agenticLoopAux getDecision validate maxAttempts none none

/-- The forced HOLD built after three rejected attempts
(trading-engine.ts lines 637-644); `undefined` is how JS renders an
absent reason inside the template string. -/
def forcedHold (reason : Option String) : TradeDecision :=
  { action := .HOLD, ticker := none, shares := 0,
    reasoning := "Could not find valid trade after 3 attempts: " ++
      reason.getD "undefined",
    leverage := none }

/-- The decision `processModel` settles on: the last attempt's decision
when it validated, and the forced HOLD otherwise. -/
def processModelOutcome
    (getDecision : Option String → Option TradeDecision → TradeDecision)
    (validate : TradeDecision → ValidationResult) : TradeDecision :=
  match (agenticAttempts getDecision validate).getLast? with
  | some last => if last.result.isValid then last.decision else forcedHold last.result.reason
  | none => forcedHold none

theorem agenticLoopAux_length_le
    (gd : Option String → Option TradeDecision → TradeDecision)
    (val : TradeDecision → ValidationResult) :
    ∀ (fuel : Nat) (fb : Option String) (prev : Option TradeDecision),
      (agenticLoopAux gd val fuel fb prev).length ≤ fuel := by
  intro fuel
  induction fuel with
  | zero => intro fb prev; simp [agenticLoopAux]
  | succ n ih =>
    intro fb prev
    simp only [agenticLoopAux]
    by_cases h : (val (gd fb prev)).isValid
    · simp [h]
    · simp only [h, if_false, Bool.false_eq_true, List.length_cons]
      exact Nat.succ_le_succ (ih _ _)

theorem agenticLoopAux_length_pos
    (gd : Option String → Option TradeDecision → TradeDecision)
    (val : TradeDecision → ValidationResult) :
    ∀ (fuel : Nat) (fb : Option String) (prev : Option TradeDecision),
      0 < fuel → 0 < (agenticLoopAux gd val fuel fb prev).length := by
  intro fuel fb prev hf
  cases fuel with
  | zero => omega
  | succ n =>
    simp only [agenticLoopAux]
    by_cases h : (val (gd fb prev)).isValid
    · simp [h]
    · simp [h]

theorem agenticLoopAux_head
    (gd : Option String → Option TradeDecision → TradeDecision)
    (val : TradeDecision → ValidationResult) :
    ∀ (fuel : Nat) (fb : Option String) (prev : Option TradeDecision)
      (a : Attempt),
      (agenticLoopAux gd val fuel fb prev)[0]? = some a →
      a.feedback = fb ∧ a.decision = gd fb prev ∧ a.result = val (gd fb prev) := by
  intro fuel fb prev a ha
  cases fuel with
  | zero => simp [agenticLoopAux] at ha
  | succ n =>
    by_cases hv : (val (gd fb prev)).isValid
    · simp only [agenticLoopAux, if_pos hv, List.getElem?_cons_zero,
        Option.some.injEq] at ha
      rw [← ha]
      exact ⟨rfl, rfl, rfl⟩
    · simp only [agenticLoopAux, if_neg hv, List.getElem?_cons_zero,
        Option.some.injEq] at ha
      rw [← ha]
      exact ⟨rfl, rfl, rfl⟩

theorem agenticLoopAux_prev_rejected
    (gd : Option String → Option TradeDecision → TradeDecision)
    (val : TradeDecision → ValidationResult) :
    ∀ (fuel : Nat) (fb : Option String) (prev : Option TradeDecision)
      (i : Nat) (a b : Attempt),
      (agenticLoopAux gd val fuel fb prev)[i]? = some a →
      (agenticLoopAux gd val fuel fb prev)[i + 1]? = some b →
      a.result.isValid = false := by
  intro fuel
  induction fuel with
  | zero => intro fb prev i a b ha hb; simp [agenticLoopAux] at ha
  | succ n ih =>
    intro fb prev i a b ha hb
    by_cases hv : (val (gd fb prev)).isValid
    · simp only [agenticLoopAux, if_pos hv] at hb
      rw [List.getElem?_cons_succ] at hb
      simp at hb
    · simp only [agenticLoopAux, if_neg hv] at ha hb
      cases i with
      | zero =>
        rw [List.getElem?_cons_zero] at ha
        rw [Option.some.injEq] at ha
        rw [← ha]
        exact Bool.eq_false_iff.mpr hv
      | succ j =>
        rw [List.getElem?_cons_succ] at ha hb
        exact ih _ _ j a b ha hb

theorem agenticLoopAux_chain
    (gd : Option String → Option TradeDecision → TradeDecision)
    (val : TradeDecision → ValidationResult) :
    ∀ (fuel : Nat) (fb : Option String) (prev : Option TradeDecision)
      (i : Nat) (a b : Attempt),
      (agenticLoopAux gd val fuel fb prev)[i]? = some a →
      (agenticLoopAux gd val fuel fb prev)[i + 1]? = some b →
      b.feedback = a.result.reason ∧
      b.decision = gd a.result.reason (some a.decision) := by
  intro fuel
  induction fuel with
  | zero => intro fb prev i a b ha hb; simp [agenticLoopAux] at ha
  | succ n ih =>
    intro fb prev i a b ha hb
    by_cases hv : (val (gd fb prev)).isValid
    · simp only [agenticLoopAux, if_pos hv] at hb
      rw [List.getElem?_cons_succ] at hb
      simp at hb
    · simp only [agenticLoopAux, if_neg hv] at ha hb
      cases i with
      | zero =>
        rw [List.getElem?_cons_zero, Option.some.injEq] at ha
        rw [List.getElem?_cons_succ] at hb
        have hh := agenticLoopAux_head gd val n
          (val (gd fb prev)).reason (some (gd fb prev)) b hb
        rw [← ha]
        exact ⟨hh.1, hh.2.1⟩
      | succ j =>
        rw [List.getElem?_cons_succ] at ha hb
        exact ih _ _ j a b ha hb

theorem agenticLoopAux_last_rejected
    (gd : Option String → Option TradeDecision → TradeDecision)
    (val : TradeDecision → ValidationResult) :
    ∀ (fuel : Nat) (fb : Option String) (prev : Option TradeDecision)
      (last : Attempt),
      (agenticLoopAux gd val fuel fb prev).getLast? = some last →
      last.result.isValid = false →
      (agenticLoopAux gd val fuel fb prev).length = fuel := by
  intro fuel
  induction fuel with
  | zero => intro fb prev last hlast hinv; simp [agenticLoopAux] at hlast
  | succ n ih =>
    intro fb prev last hlast hinv
    revert hlast
    simp only [agenticLoopAux]
    by_cases hv : (val (gd fb prev)).isValid
    · rw [if_pos hv]
      intro hlast
      simp [List.getLast?] at hlast
      rw [← hlast] at hinv
      simp [hv] at hinv
    · rw [if_neg hv]
      intro hlast
      cases n with
      | zero => simp [agenticLoopAux]
      | succ m =>
        have hpos := agenticLoopAux_length_pos gd val (m + 1)
          (val (gd fb prev)).reason (some (gd fb prev)) (Nat.succ_pos m)
        cases hrest : agenticLoopAux gd val (m + 1)
            (val (gd fb prev)).reason (some (gd fb prev)) with
        | nil => rw [hrest] at hpos; simp at hpos
        | cons b t =>
          rw [hrest, List.getLast?_cons_cons] at hlast
          have hlen := ih (val (gd fb prev)).reason (some (gd fb prev)) last
            (by rw [hrest]; exact hlast) hinv
          rw [hrest] at hlen
          simp [hlen]

/-- C5: the per-agent agentic loop performs between 1 and 3 decision
attempts; every attempt before the next one was rejected (an accepted
decision exits the loop immediately) and its rejection reason plus the
rejected decision are fed into the next decision request; a last
attempt that validated becomes the outcome; and when the last (third)
attempt is still rejected the outcome is the forced HOLD (action HOLD,
no ticker, zero shares) whose reasoning records the validation
failure.  Validation failures never throw: the outcome is total. -/
theorem agentic_loop_three_attempts
    (gd : Option String → Option TradeDecision → TradeDecision)
    (val : TradeDecision → ValidationResult) :
    (1 ≤ (agenticAttempts gd val).length ∧
      (agenticAttempts gd val).length ≤ 3) ∧
    (∀ i a b, (agenticAttempts gd val)[i]? = some a →
      (agenticAttempts gd val)[i + 1]? = some b →
      a.result.isValid = false ∧
      b.feedback = a.result.reason ∧
      b.decision = gd a.result.reason (some a.decision)) ∧
    (∀ last, (agenticAttempts gd val).getLast? = some last →
      last.result.isValid = true →
      processModelOutcome gd val = last.decision) ∧
    (∀ last, (agenticAttempts gd val).getLast? = some last →
      last.result.isValid = false →
      (agenticAttempts gd val).length = 3 ∧
      processModelOutcome gd val = forcedHold last.result.reason ∧
      (processModelOutcome gd val).action = .HOLD ∧
      (processModelOutcome gd val).shares = 0 ∧
      (processModelOutcome gd val).ticker = none) := by
  refine ⟨⟨?_, ?_⟩, ?_, ?_, ?_⟩
  · exact agenticLoopAux_length_pos gd val maxAttempts none none (by norm_num [maxAttempts])
  · exact agenticLoopAux_length_le gd val maxAttempts none none
  · intro i a b ha hb
    exact ⟨agenticLoopAux_prev_rejected gd val maxAttempts none none i a b ha hb,
      agenticLoopAux_chain gd val maxAttempts none none i a b ha hb⟩
  · intro last hlast hvalid
    simp [processModelOutcome, hlast, hvalid]
  · intro last hlast hinvalid
    refine ⟨agenticLoopAux_last_rejected gd val maxAttempts none none last hlast hinvalid,
      ?_, ?_, ?_, ?_⟩ <;>
      simp [processModelOutcome, hlast, hinvalid, forcedHold]

/-- Witness for C5: an always-accepted HOLD exits after one attempt and
becomes the outcome; an always-rejected BUY is retried and forced to
the HOLD fallback. -/
theorem agentic_loop_three_attempts_witness :
    processModelOutcome
      (fun _ _ => { action := .HOLD, ticker := none, shares := 0,
                    reasoning := "h", leverage := none })
      (fun _ => { isValid := true, reason := none }) =
      { action := .HOLD, ticker := none, shares := 0,
        reasoning := "h", leverage := none } ∧
    processModelOutcome
      (fun _ _ => { action := .BUY, ticker := some "X", shares := 1,
                    reasoning := "b", leverage := none })
      (fun _ => { isValid := false, reason := some "X not in watchlist" }) =
      forcedHold (some "X not in watchlist") := by
  constructor
  · exact (agentic_loop_three_attempts
      (fun _ _ => { action := .HOLD, ticker := none, shares := 0,
                    reasoning := "h", leverage := none })
      (fun _ => { isValid := true, reason := none })).2.2.1
      { feedback := none,
        decision := { action := .HOLD, ticker := none, shares := 0,
                      reasoning := "h", leverage := none },
        result := { isValid := true, reason := none } }
      (by decide) rfl
  · exact ((agentic_loop_three_attempts
      (fun _ _ => { action := .BUY, ticker := some "X", shares := 1,
                    reasoning := "b", leverage := none })
      (fun _ => { isValid := false, reason := some "X not in watchlist" })).2.2.2
      { feedback := some "X not in watchlist",
        decision := { action := .BUY, ticker := some "X", shares := 1,
                      reasoning := "b", leverage := none },
        result := { isValid := false, reason := some "X not in watchlist" } }
      (by decide) rfl).2.1

/-- `const maxRetries = 3` of model-manager.ts line 249. -/
def maxRetries : Nat := 3

/-- The fallback HOLD returned by `ModelManager.getModelDecision` after
the retry budget is exhausted (model-manager.ts lines 420-428). -/
def fallbackHold : TradeDecision :=
  { action := .HOLD, ticker := none, shares := 0,
    reasoning := "Failed to get valid decision after 3 attempts",
    leverage := none }

/-- The backoff wait before the next provider attempt:
`1000 * Math.pow(2, retryCount)` milliseconds, evaluated after
`retryCount++` (model-manager.ts line 432). -/
def backoffDelay (retryCount : Nat) : Nat := 1000 * 2 ^ retryCount

/-- Observable outcome of one `getModelDecision` call: the decision
returned, how many provider attempts were made, and the list of
backoff delays (ms) slept between attempts. -/
structure DecisionRunResult where
  decision : TradeDecision
  attempts : Nat
  delays : List Nat
deriving DecidableEq, Repr

/-- The `while (retryCount < maxRetries)` loop of
`ModelManager.getModelDecision` (model-manager.ts lines 249-434).
`oracle n` is the combined provider-call-plus-parse outcome of the
attempt made at `retryCount = n`; a parse or provider failure is the
`.error` case.  The fuel equals `maxRetries - retryCount`; the `fuel =
0` branch is the unreachable `throw` after the loop. -/
def getModelDecisionAux (oracle : Nat → Except String TradeDecision) :
    Nat → Nat → List Nat → DecisionRunResult
  | 0, retryCount, ds =>
    { decision := fallbackHold, attempts := retryCount, delays := ds }
  | fuel + 1, retryCount, ds =>
    match oracle retryCount with
    | .ok d => { decision := d, attempts := retryCount + 1, delays := ds }
    | .error _ =>
      if maxRetries ≤ retryCount + 1 then
        { decision := fallbackHold, attempts := retryCount + 1, delays := ds }
      else
        getModelDecisionAux oracle fuel (retryCount + 1)
          (ds ++ [backoffDelay (retryCount + 1)])

/-- One full `getModelDecision` call, starting at `retryCount = 0`. -/
def getModelDecisionModel
    (oracle : Nat → Except String TradeDecision) : DecisionRunResult :=
  getModelDecisionAux oracle maxRetries 0 []

/-- C8 counterexample: when every provider attempt fails to parse, the
backoff delays actually slept between the three attempts are 2000 ms
and 4000 ms — not the claimed 1 s, 2 s, 4 s sequence (the wait is
`1000 * 2 ^ retryCount` evaluated after the increment, and only two
waits separate three attempts). -/
theorem decision_retry_backoff_counterexample :
    (getModelDecisionModel (fun _ => .error "malformed")).delays = [2000, 4000] ∧
    (getModelDecisionModel (fun _ => .error "malformed")).delays ≠ [1000, 2000, 4000] ∧
    (getModelDecisionModel (fun _ => .error "malformed")).delays ≠ [1000, 2000] := by
  decide

/-- C8 (amended): the engine makes at most 3 provider attempts; when
all 3 fail it returns the fallback HOLD (zero shares, no ticker, the
failure recorded in the reasoning) having slept 2 s and then 4 s
between consecutive attempts; a successful attempt returns that
decision immediately with only the delays accumulated so far; no
failure escapes as an exception (the model is a total function). -/
theorem decision_retry_fallback
    (oracle : Nat → Except String TradeDecision) :
    ((getModelDecisionModel oracle).attempts ≤ 3) ∧
    ((∀ i, i < 3 → ∃ e, oracle i = .error e) →
      getModelDecisionModel oracle =
        { decision := fallbackHold, attempts := 3, delays := [2000, 4000] }) ∧
    (∀ d, oracle 0 = .ok d →
      getModelDecisionModel oracle =
        { decision := d, attempts := 1, delays := [] }) ∧
    (∀ d e, oracle 0 = .error e → oracle 1 = .ok d →
      getModelDecisionModel oracle =
        { decision := d, attempts := 2, delays := [2000] }) ∧
    (∀ d e f, oracle 0 = .error e → oracle 1 = .error f → oracle 2 = .ok d →
      getModelDecisionModel oracle =
        { decision := d, attempts := 3, delays := [2000, 4000] }) := by
  refine ⟨?_, ?_, ?_, ?_, ?_⟩
  · rcases h0 : oracle 0 with e0 | d0
    · rcases h1 : oracle 1 with e1 | d1
      · rcases h2 : oracle 2 with e2 | d2
        · simp [getModelDecisionModel, getModelDecisionAux, h0, h1, h2, maxRetries]
        · simp [getModelDecisionModel, getModelDecisionAux, h0, h1, h2, maxRetries]
      · simp [getModelDecisionModel, getModelDecisionAux, h0, h1, maxRetries]
    · simp [getModelDecisionModel, getModelDecisionAux, h0, maxRetries]
  · intro hall
    obtain ⟨e0, h0⟩ := hall 0 (by norm_num)
    obtain ⟨e1, h1⟩ := hall 1 (by norm_num)
    obtain ⟨e2, h2⟩ := hall 2 (by norm_num)
    simp [getModelDecisionModel, getModelDecisionAux, h0, h1, h2, maxRetries,
      backoffDelay]
  · intro d h0
    simp [getModelDecisionModel, getModelDecisionAux, h0, maxRetries]
  · intro d e h0 h1
    simp [getModelDecisionModel, getModelDecisionAux, h0, h1, maxRetries,
      backoffDelay]
  · intro d e f h0 h1 h2
    simp [getModelDecisionModel, getModelDecisionAux, h0, h1, h2, maxRetries,
      backoffDelay]

/-- Witness for C8 (amended): with every attempt failing, the result is
the fallback HOLD after delays of 2000 ms and 4000 ms; with the first
attempt succeeding, the decision is returned with no delay. -/
theorem decision_retry_fallback_witness :
    getModelDecisionModel (fun _ => .error "malformed") =
      { decision := fallbackHold, attempts := 3, delays := [2000, 4000] } ∧
    getModelDecisionModel
      (fun _ => .ok { action := .HOLD, ticker := none, shares := 0,
                      reasoning := "h", leverage := none }) =
      { decision := { action := .HOLD, ticker := none, shares := 0,
                      reasoning := "h", leverage := none },
        attempts := 1, delays := [] } := by
  constructor
  · exact (decision_retry_fallback (fun _ => .error "malformed")).2.1
      (fun i _ => ⟨"malformed", rfl⟩)
  · exact (decision_retry_fallback
      (fun _ => .ok { action := .HOLD, ticker := none, shares := 0,
                      reasoning := "h", leverage := none })).2.2.1
      { action := .HOLD, ticker := none, shares := 0,
        reasoning := "h", leverage := none } rfl

/-- Everything one `processModel` call depends on for one agent: the
agent's portfolio, the decision oracle and validator driving the
agentic loop, and the broker gateway's response to this agent's order. -/
structure AgentCtx where
  pf : Portfolio
  getDecision : Option String → Option TradeDecision → TradeDecision
  validate : TradeDecision → ValidationResult
  submitOrder : Except String BrokerOrderResult

/-- `TradingEngine.processModel` for one agent, reduced to its
snapshot-relevant control flow (trading-engine.ts lines 589-729): run
the agentic loop; a non-HOLD outcome goes through `executeTrade`, whose
gateway throw is rethrown (`throw error`, line 876) and therefore skips
the `createSnapshot` call at the end of the method; in every other path
the snapshot is created after the outcome.  `.ok` carries the
portfolio the snapshot is taken of. -/
def processModelRun (ctx : AgentCtx) : Except String Portfolio :=
  let decision := processModelOutcome ctx.getDecision ctx.validate
  if decision.action ≠ .HOLD then
    let ex := executeTrade ctx.pf decision ctx.submitOrder
    if ex.threw then .error "Trade execution failed" else .ok ex.portfolio
  else .ok ctx.pf

/-- Counters of one `executeTradingCycle` call plus, per agent in
processing order, the number of ValuationSnapshot rows written for that
agent during the cycle. -/
structure CycleResult where
  processed : Nat
  errors : Nat
  snapshots : List Nat
deriving DecidableEq, Repr

/-- One iteration of the per-model loop of
`TradingEngine.executeTradingCycle` (trading-engine.ts lines 540-554):
`processModel` runs inside a try/catch; an error increments the error
counter and the loop continues with the next agent. -/
def cycleStep (acc : CycleResult) (ctx : AgentCtx) : CycleResult :=
  match processModelRun ctx with
  | .ok _ =>
    { acc with processed := acc.processed + 1, snapshots := acc.snapshots ++ [1] }
  | .error _ =>
    { acc with errors := acc.errors + 1, snapshots := acc.snapshots ++ [0] }

/-- The per-model loop over all active agents of one trading cycle. -/
def executeCycleModel (agents : List AgentCtx) : CycleResult :=
  agents.foldl cycleStep { processed := 0, errors := 0, snapshots := [] }

/-- Whether this agent's `processModel` call completed without an
unhandled exception. -/
def agentOk (ctx : AgentCtx) : Bool :=
  match processModelRun ctx with
  | .ok _ => true
  | .error _ => false

theorem executeCycleModel_foldl (agents : List AgentCtx) :
    ∀ acc : CycleResult,
      agents.foldl cycleStep acc =
        { processed := acc.processed + agents.countP agentOk,
          errors := acc.errors + agents.countP (fun c => !agentOk c),
          snapshots := acc.snapshots ++
            agents.map (fun c => if agentOk c then 1 else 0) } := by
  induction agents with
  | nil => intro acc; simp
  | cons c rest ih =>
    intro acc
    simp only [List.foldl_cons]
    rw [ih]
    cases h : processModelRun c with
    | ok pf =>
      have hok : agentOk c = true := by simp [agentOk, h]
      simp [cycleStep, h, hok, List.countP_cons]
      omega
    | error e =>
      have hok : agentOk c = false := by simp [agentOk, h]
      simp [cycleStep, h, hok, List.countP_cons]
      omega

theorem countP_agentOk_add (agents : List AgentCtx) :
    agents.countP agentOk +
      agents.countP (fun c => !agentOk c) = agents.length := by
  induction agents with
  | nil => simp
  | cons c rest ih =>
    cases hc : agentOk c <;> simp [List.countP_cons, hc] <;> omega

/-- C9 counterexample: in a cycle with two agents, the first agent's
validated BUY hits a gateway throw, so that agent ends the cycle with
zero ValuationSnapshot writes — not "exactly one regardless of
success/failure"; the second agent is still processed and gets its
snapshot. -/
theorem cycle_snapshot_counterexample :
    executeCycleModel
      [ { pf := { cashBalance := 100000, initialValue := 100000, positions := [] },
          getDecision := fun _ _ =>
            { action := .BUY, ticker := some "RELIANCE", shares := 10,
              reasoning := "b", leverage := none },
          validate := fun _ => { isValid := true, reason := none },
          submitOrder := .error "gateway down" },
        { pf := { cashBalance := 100000, initialValue := 100000, positions := [] },
          getDecision := fun _ _ =>
            { action := .HOLD, ticker := none, shares := 0,
              reasoning := "h", leverage := none },
          validate := fun _ => { isValid := true, reason := none },
          submitOrder := .ok { orderId := "o", status := "COMPLETE",
                               filledPrice := some 2450 } } ] =
      { processed := 1, errors := 1, snapshots := [0, 1] } := by
  decide

/-- C9 (amended): every agent in the cycle is attempted — one snapshot
entry per agent, and processed plus errors equals the agent count, so a
failing agent never prevents the remaining agents from being
processed; an agent receives exactly one ValuationSnapshot when its
processing completes without an unhandled exception, and zero when its
processing throws (the gateway-throw path skips the snapshot). -/
theorem cycle_snapshots_and_isolation (agents : List AgentCtx) :
    (executeCycleModel agents).snapshots =
      agents.map (fun c => if agentOk c then 1 else 0) ∧
    (executeCycleModel agents).snapshots.length = agents.length ∧
    (executeCycleModel agents).processed + (executeCycleModel agents).errors =
      agents.length := by
  have h := executeCycleModel_foldl agents
    { processed := 0, errors := 0, snapshots := [] }
  have hcount := countP_agentOk_add agents
  refine ⟨?_, ?_, ?_⟩
  · rw [executeCycleModel, h]
    simp
  · rw [executeCycleModel, h]
    simp
  · rw [executeCycleModel, h]
    simp only [Nat.zero_add]
    omega

/-- Run-loop bookkeeping of `runBacktestLive` (runner.ts lines 69-234):
the `tradingDaysProcessed` counter, the indices of days whose
end-of-day persistence transaction (RunAgentResult upsert plus
RunSnapshot append) committed, and how many reads of the sticky
`aborted` flag have happened so far. -/
structure RunState where
  tradingDays : Nat
  snapshotDays : List Nat
  reads : Nat
deriving DecidableEq, Repr

/-- The abort flag value observed by the k-th read.  The AbortSignal
handler sets a sticky boolean; parameterizing by the index `abortAt` of
the first read that observes it covers every timing of the signal
relative to the loop's check points (a signal never raised is an
`abortAt` beyond all reads performed). -/
def flagAt (abortAt k : Nat) : Bool := abortAt ≤ k

/-- One read of the `aborted` flag (an `if (aborted)` check point). -/
def readFlag (abortAt : Nat) (st : RunState) : Bool × RunState :=
  (flagAt abortAt st.reads, { st with reads := st.reads + 1 })

/-- The intraday `for (cycle = 1; cycle <= cyclesPerDay; cycle++)` loop
(runner.ts lines 91-108): each iteration first checks the aborted flag
and breaks when set; `executeTradingCycle` itself does not touch the
run bookkeeping.  Returns the state and whether the loop broke. -/
def runCycles (abortAt : Nat) : Nat → RunState → RunState × Bool
  | 0, st => (st, false)
  | n + 1, st =>
    let r := readFlag abortAt st
    if r.1 then (r.2, true) else runCycles abortAt n r.2

/-- The `while (current <= end)` day loop of `runBacktestLive`
(runner.ts lines 80-202).  `days` lists the calendar days of the
requested range in order (`true` = trading day, `false` = weekend,
which is skipped); `idx` is the index of the head day.  Per day: check
the flag (break when set), skip weekends, increment
`tradingDaysProcessed` at the start of a trading day, run the intraday
cycles, check the flag again before the end-of-day persistence, and
only then commit the day's RunSnapshot.  Returns the state and whether
the run was aborted. -/
def runDays (abortAt cyclesPerDay : Nat) :
    List Bool → Nat → RunState → RunState × Bool
  | [], _, st => (st, false)
  | isTrading :: rest, idx, st =>
    let r := readFlag abortAt st
    if r.1 then (r.2, true)
    else if !isTrading then runDays abortAt cyclesPerDay rest (idx + 1) r.2
    else
      let st2 := { r.2 with tradingDays := r.2.tradingDays + 1 }
      let c := runCycles abortAt cyclesPerDay st2
      let r2 := readFlag abortAt c.1
      if c.2 || r2.1 then (r2.2, true)
      else
        runDays abortAt cyclesPerDay rest (idx + 1)
          { r2.2 with snapshotDays := r2.2.snapshotDays ++ [idx] }

/-- Terminal status of a backtest run reachable in this model (FAILED
arises only from a thrown error, which the model does not produce). -/
inductive RunStatus
  | COMPLETED
  | CANCELLED
deriving DecidableEq, Repr

/-- Observable outcome of `runBacktestLive`. -/
structure RunOutcome where
  status : RunStatus
  tradingDays : Nat
  snapshotDays : List Nat
  ranksAssigned : Bool
deriving DecidableEq, Repr

/-- `runBacktestLive` reduced to its run bookkeeping: after the day
loop, an aborted run is marked CANCELLED with the `tradingDays` counter
and returns before any rank is computed (runner.ts lines 209-234);
otherwise ranks are assigned and the run is COMPLETED. -/
def runBacktestModel (abortAt cyclesPerDay : Nat) (days : List Bool) :
    RunOutcome :=
  let r := runDays abortAt cyclesPerDay days 0
    { tradingDays := 0, snapshotDays := [], reads := 0 }
  if r.2 then
    { status := .CANCELLED, tradingDays := r.1.tradingDays,
      snapshotDays := r.1.snapshotDays, ranksAssigned := false }
  else
    { status := .COMPLETED, tradingDays := r.1.tradingDays,
      snapshotDays := r.1.snapshotDays, ranksAssigned := true }

theorem runCycles_preserves (abortAt : Nat) :
    ∀ (n : Nat) (st : RunState),
      (runCycles abortAt n st).1.tradingDays = st.tradingDays ∧
      (runCycles abortAt n st).1.snapshotDays = st.snapshotDays := by
  intro n
  induction n with
  | zero => intro st; simp [runCycles]
  | succ m ih =>
    intro st
    simp only [runCycles, readFlag]
    by_cases hf : flagAt abortAt st.reads
    · simp [hf]
    · simpa [hf] using ih { st with reads := st.reads + 1 }

theorem runDays_snapshots_monotone (abortAt cyclesPerDay : Nat) :
    ∀ (days : List Bool) (idx : Nat) (st : RunState),
      ∃ t, (runDays abortAt cyclesPerDay days idx st).1.snapshotDays =
        st.snapshotDays ++ t := by
  intro days
  induction days with
  | nil => intro idx st; exact ⟨[], by simp [runDays]⟩
  | cons isTrading rest ih =>
    intro idx st
    simp only [runDays, readFlag]
    by_cases hf : flagAt abortAt st.reads
    · exact ⟨[], by simp [hf]⟩
    · simp only [hf, if_false, Bool.false_eq_true]
      by_cases ht : isTrading
      · simp only [ht, Bool.not_true, if_false, Bool.false_eq_true]
        have hpres := runCycles_preserves abortAt cyclesPerDay
          { tradingDays := st.tradingDays + 1,
            snapshotDays := st.snapshotDays, reads := st.reads + 1 }
        by_cases hc : (runCycles abortAt cyclesPerDay
            { tradingDays := st.tradingDays + 1,
              snapshotDays := st.snapshotDays, reads := st.reads + 1 }).2
        · exact ⟨[], by simp [hc, hpres.2]⟩
        · by_cases hf2 : flagAt abortAt (runCycles abortAt cyclesPerDay
              { tradingDays := st.tradingDays + 1,
                snapshotDays := st.snapshotDays, reads := st.reads + 1 }).1.reads
          · exact ⟨[], by simp [hc, hf2, hpres.2]⟩
          · simp only [hc, hf2, if_false, Bool.false_eq_true, Bool.or_self]
            obtain ⟨t, hih⟩ := ih (idx + 1)
              { tradingDays := (runCycles abortAt cyclesPerDay
                  { tradingDays := st.tradingDays + 1,
                    snapshotDays := st.snapshotDays, reads := st.reads + 1 }).1.tradingDays,
                snapshotDays := (runCycles abortAt cyclesPerDay
                  { tradingDays := st.tradingDays + 1,
                    snapshotDays := st.snapshotDays, reads := st.reads + 1 }).1.snapshotDays ++ [idx],
                reads := (runCycles abortAt cyclesPerDay
                  { tradingDays := st.tradingDays + 1,
                    snapshotDays := st.snapshotDays, reads := st.reads + 1 }).1.reads + 1 }
            refine ⟨[idx] ++ t, ?_⟩
            rw [hih, hpres.2]
            simp
      · simpa [ht] using ih (idx + 1) { st with reads := st.reads + 1 }

theorem runDays_day_count (abortAt cyclesPerDay : Nat) :
    ∀ (days : List Bool) (idx : Nat) (st : RunState),
      st.tradingDays = st.snapshotDays.length →
      ((runDays abortAt cyclesPerDay days idx st).2 = false →
        (runDays abortAt cyclesPerDay days idx st).1.tradingDays =
          (runDays abortAt cyclesPerDay days idx st).1.snapshotDays.length) ∧
      ((runDays abortAt cyclesPerDay days idx st).2 = true →
        (runDays abortAt cyclesPerDay days idx st).1.snapshotDays.length ≤
          (runDays abortAt cyclesPerDay days idx st).1.tradingDays ∧
        (runDays abortAt cyclesPerDay days idx st).1.tradingDays ≤
          (runDays abortAt cyclesPerDay days idx st).1.snapshotDays.length + 1) := by
  intro days
  induction days with
  | nil =>
    intro idx st hinv
    constructor
    · intro _; simpa [runDays] using hinv
    · intro habort; simp [runDays] at habort
  | cons isTrading rest ih =>
    intro idx st hinv
    simp only [runDays, readFlag]
    by_cases hf : flagAt abortAt st.reads
    · constructor
      · intro hfalse; simp [hf] at hfalse
      · intro _
        simp only [hf, if_true]
        constructor <;> omega
    · simp only [hf, if_false, Bool.false_eq_true]
      by_cases ht : isTrading
      · simp only [ht, Bool.not_true, if_false, Bool.false_eq_true]
        have hpres := runCycles_preserves abortAt cyclesPerDay
          { tradingDays := st.tradingDays + 1,
            snapshotDays := st.snapshotDays, reads := st.reads + 1 }
        by_cases hc : (runCycles abortAt cyclesPerDay
            { tradingDays := st.tradingDays + 1,
              snapshotDays := st.snapshotDays, reads := st.reads + 1 }).2
        · constructor
          · intro hfalse; simp [hc] at hfalse
          · intro _
            simp only [hc, Bool.true_or, if_true]
            simp only [hpres.1, hpres.2]
            constructor <;> omega
        · by_cases hf2 : flagAt abortAt (runCycles abortAt cyclesPerDay
              { tradingDays := st.tradingDays + 1,
                snapshotDays := st.snapshotDays, reads := st.reads + 1 }).1.reads
          · constructor
            · intro hfalse; simp [hc, hf2] at hfalse
            · intro _
              simp only [hc, hf2, Bool.false_or, if_true]
              simp only [hpres.1, hpres.2]
              constructor <;> omega
          · simp only [hc, hf2, if_false, Bool.false_eq_true, Bool.or_self]
            refine ih (idx + 1)
              { tradingDays := (runCycles abortAt cyclesPerDay
                  { tradingDays := st.tradingDays + 1,
                    snapshotDays := st.snapshotDays, reads := st.reads + 1 }).1.tradingDays,
                snapshotDays := (runCycles abortAt cyclesPerDay
                  { tradingDays := st.tradingDays + 1,
                    snapshotDays := st.snapshotDays, reads := st.reads + 1 }).1.snapshotDays ++ [idx],
                reads := (runCycles abortAt cyclesPerDay
                  { tradingDays := st.tradingDays + 1,
                    snapshotDays := st.snapshotDays, reads := st.reads + 1 }).1.reads + 1 }
              ?_
            simp only [hpres.1, hpres.2, List.length_append, List.length_cons,
              List.length_nil]
            omega
      · have hts : isTrading = false := Bool.eq_false_iff.mpr ht
        simp only [hts, Bool.not_false, if_true]
        exact ih (idx + 1) { st with reads := st.reads + 1 } hinv

/-- C6 counterexample: with one trading day, two intraday cycles and
the abort observed at the second flag check (between the two cycles,
mid-day), the run ends CANCELLED with `tradingDays = 1` although zero
trading days were fully processed — no end-of-day RunSnapshot was
committed (`tradingDaysProcessed++` runs at the start of a day, before
the mid-day abort checks).  So `tradingDays` does not equal the number
of fully processed days. -/
theorem run_cancellation_counterexample :
    runBacktestModel 1 2 [true] =
      { status := .CANCELLED, tradingDays := 1, snapshotDays := [],
        ranksAssigned := false } := by
  decide

/-- C6 (amended): a cancelled run ends with status CANCELLED and no
ranks assigned, all committed per-day RunSnapshot rows are preserved
(the snapshot-day list only grows, from any intermediate state), and
`tradingDays` counts the trading days started: it equals the number of
fully processed (snapshot-committed) days when the signal is observed
at a day boundary and exceeds it by exactly one when the signal is
observed mid-day; a run that is not cancelled completes with ranks and
`tradingDays` equal to its fully processed days. -/
theorem run_cancellation_behavior
    (abortAt cyclesPerDay : Nat) (days : List Bool) :
    ((runBacktestModel abortAt cyclesPerDay days).status = .CANCELLED →
      (runBacktestModel abortAt cyclesPerDay days).ranksAssigned = false ∧
      (runBacktestModel abortAt cyclesPerDay days).snapshotDays.length ≤
        (runBacktestModel abortAt cyclesPerDay days).tradingDays ∧
      (runBacktestModel abortAt cyclesPerDay days).tradingDays ≤
        (runBacktestModel abortAt cyclesPerDay days).snapshotDays.length + 1) ∧
    ((runBacktestModel abortAt cyclesPerDay days).status = .COMPLETED →
      (runBacktestModel abortAt cyclesPerDay days).ranksAssigned = true ∧
      (runBacktestModel abortAt cyclesPerDay days).tradingDays =
        (runBacktestModel abortAt cyclesPerDay days).snapshotDays.length) ∧
    (∀ (idx : Nat) (st : RunState), ∃ t,
      (runDays abortAt cyclesPerDay days idx st).1.snapshotDays =
        st.snapshotDays ++ t) := by
  have hcount := runDays_day_count abortAt cyclesPerDay days 0
    { tradingDays := 0, snapshotDays := [], reads := 0 } rfl
  refine ⟨?_, ?_, runDays_snapshots_monotone abortAt cyclesPerDay days⟩
  · intro hstat
    by_cases hab : (runDays abortAt cyclesPerDay days 0
        { tradingDays := 0, snapshotDays := [], reads := 0 }).2
    · have hb := hcount.2 hab
      simp only [runBacktestModel, hab, if_true]
      exact ⟨trivial, hb.1, hb.2⟩
    · simp [runBacktestModel, hab] at hstat
  · intro hstat
    by_cases hab : (runDays abortAt cyclesPerDay days 0
        { tradingDays := 0, snapshotDays := [], reads := 0 }).2
    · simp [runBacktestModel, hab] at hstat
    · have hb := hcount.1 (Bool.eq_false_iff.mpr hab)
      simp only [runBacktestModel, hab, if_false, Bool.false_eq_true]
      exact ⟨trivial, hb⟩

/-- Witness for C6 (amended): a run with the signal never raised
completes with ranks and matching day counts; the mid-day cancellation
of the counterexample ends with no ranks assigned. -/
theorem run_cancellation_behavior_witness :
    (runBacktestModel 99 1 [true, false]).ranksAssigned = true ∧
    (runBacktestModel 99 1 [true, false]).tradingDays =
      (runBacktestModel 99 1 [true, false]).snapshotDays.length ∧
    (runBacktestModel 1 2 [true]).ranksAssigned = false := by
  refine ⟨?_, ?_, ?_⟩
  · exact ((run_cancellation_behavior 99 1 [true, false]).2.1 (by decide)).1
  · exact ((run_cancellation_behavior 99 1 [true, false]).2.1 (by decide)).2
  · exact ((run_cancellation_behavior 1 2 [true]).1 (by decide)).1

/-- A quote row returned by the market-data fetch. -/
structure MarketDataPoint where
  ticker : String
  price : ℚ
deriving DecidableEq, Repr

/-- Lookup in a JS `Map<string, number>` modelled as an association
list in insertion order. -/
def lookupPrice (m : List (String × ℚ)) (t : String) : Option ℚ :=
  (m.find? (fun e => e.1 = t)).map (fun e => e.2)

/-- `Map.set` on the association list: replace the value in place when
the key is present, append otherwise. -/
def setEntry : List (String × ℚ) → String → ℚ → List (String × ℚ)
  | [], k, v => [(k, v)]
  | e :: rest, k, v =>
    if e.1 = k then (k, v) :: rest else e :: setEntry rest k v

/-- `Array.from(new Set(tickers))`: the tickers with duplicates
removed, keeping each first occurrence in order. -/
def uniq : List String → List String
  | [] => []
  | t :: rest => t :: (uniq rest).filter (fun x => ¬x = t)

/-- The collaborators of one `resolvePriceMap` call: the in-memory
`priceCache`, the outcome of the live `dataService.getMarketData`
fetch for the missing tickers (an `Except`, since the call may throw),
and the last-known persisted price per ticker (the newest `marketData`
row read by `fetchLatestCachedPrices`). -/
structure PriceEnv where
  cache : List (String × ℚ)
  fetch : Except String (List MarketDataPoint)
  persisted : String → Option ℚ

/-- Pass 1 of `resolvePriceMap` (portfolio-calculator.ts lines
291-297), the loop over the unique tickers: the cache hits seed the
resolved map in order. -/
def resolvedFromCache (env : PriceEnv) (uniqueTickers : List String) :
    List (String × ℚ) :=
  uniqueTickers.filterMap
    (fun t => (lookupPrice env.cache t).map (fun p => (t, p)))

/-- The other half of pass 1: the tickers that missed the cache, in
order. -/
def missingTickers (env : PriceEnv) (uniqueTickers : List String) :
    List String :=
  uniqueTickers.filter (fun t => (lookupPrice env.cache t).isNone)

/-- Pass 2 of `resolvePriceMap` (lines 299-312): when tickers are
missing, fetch them live and enter every returned data point with a
finite price (all rationals are finite) into the resolved map; a
thrown fetch leaves the map untouched. -/
def resolvedAfterFetch (env : PriceEnv) (uniqueTickers : List String) :
    List (String × ℚ) :=
  if (missingTickers env uniqueTickers).isEmpty then
    resolvedFromCache env uniqueTickers
  else
    match env.fetch with
    | .ok marketData =>
      marketData.foldl (fun acc dp => setEntry acc dp.ticker dp.price)
        (resolvedFromCache env uniqueTickers)
    | .error _ => resolvedFromCache env uniqueTickers

/-- The tickers still unresolved after the live fetch (line 314). -/
def stillMissingTickers (env : PriceEnv) (uniqueTickers : List String) :
    List String :=
  (missingTickers env uniqueTickers).filter
    (fun t => (lookupPrice (resolvedAfterFetch env uniqueTickers) t).isNone)

/-- `PortfolioCalculator.resolvePriceMap` (portfolio-calculator.ts
lines 280-324) for one call: pass 1 (cache), pass 2 (live fetch),
then pass 3 (lines 315-321), the last-known persisted price for the
tickers still missing.  The write-back into `this.priceCache` only
affects later calls and is not modelled. -/
def resolvePriceMap (env : PriceEnv) (tickers : List String) :
    List (String × ℚ) :=
  if tickers.isEmpty then []
  else
    let uniqueTickers := uniq tickers
    let cachedPrices := (stillMissingTickers env uniqueTickers).filterMap
      (fun t => (env.persisted t).map (fun p => (t, p)))
    cachedPrices.foldl (fun acc e => setEntry acc e.1 e.2)
      (resolvedAfterFetch env uniqueTickers)

/-- `PortfolioValuation` (lib/types): the record
`calculateTotalValue` returns. -/
structure PortfolioValuation where
  totalValue : ℚ
  cashBalance : ℚ
  positionsValue : ℚ
  returnPct : ℚ
deriving DecidableEq, Repr

/-- `PortfolioCalculator.calculateTotalValue` (portfolio-calculator.ts
lines 26-73): resolve a price map for the position tickers, sum
`currentPrice * shares` over the positions whose ticker resolved (a
position with no resolvable price only logs a warning and contributes
nothing), and set `totalValue = cashBalance + positionsValue`. -/
def calculateTotalValue (env : PriceEnv) (pf : Portfolio) :
    PortfolioValuation :=
  let positionsValue :=
    if pf.positions.isEmpty then 0
    else
      let priceMap := resolvePriceMap env (pf.positions.map (fun p => p.ticker))
      pf.positions.foldl
        (fun acc pos =>
          match lookupPrice priceMap pos.ticker with
          | some currentPrice => acc + currentPrice * (pos.shares : ℚ)
          | none => acc) 0
  let cashBalance := pf.cashBalance
  let totalValue := cashBalance + positionsValue
  let returnPct :=
    if 0 < pf.initialValue then
      (totalValue - pf.initialValue) / pf.initialValue * 100
    else 0
  { totalValue := totalValue, cashBalance := cashBalance,
    positionsValue := positionsValue, returnPct := returnPct }

/-- The spec's price-resolution chain, written from its words:
in-memory cache, then live market-data fetch, then last-known
persisted price.  `resolvePriceMap` is proved to refine it. -/
def chainPrice (env : PriceEnv) (t : String) : Option ℚ :=
  match lookupPrice env.cache t with
  | some p => some p
  | none =>
    match env.fetch with
    | .ok marketData =>
      match marketData.find? (fun dp => dp.ticker = t) with
      | some dp => some dp.price
      | none => env.persisted t
    | .error _ => env.persisted t

theorem lookupPrice_setEntry_self (m : List (String × ℚ)) (k : String) (v : ℚ) :
    lookupPrice (setEntry m k v) k = some v := by
  induction m with
  | nil => simp [setEntry, lookupPrice]
  | cons e rest ih =>
    by_cases he : e.1 = k
    · simp [setEntry, lookupPrice, he]
    · simp only [setEntry, he, if_false]
      simpa [lookupPrice, he] using ih

theorem lookupPrice_setEntry_other (m : List (String × ℚ)) (k k' : String)
    (v : ℚ) (h : k' ≠ k) :
    lookupPrice (setEntry m k v) k' = lookupPrice m k' := by
  have hk : ¬k = k' := fun he => h he.symm
  induction m with
  | nil => simp [setEntry, lookupPrice, hk]
  | cons e rest ih =>
    by_cases he : e.1 = k
    · rw [setEntry, if_pos he]
      have he' : ¬e.1 = k' := by rw [he]; exact hk
      simp [lookupPrice, he', hk]
    · rw [setEntry, if_neg he]
      by_cases he' : e.1 = k'
      · simp [lookupPrice, he']
      · simpa [lookupPrice, he'] using ih

theorem mem_uniq (l : List String) (t : String) : t ∈ uniq l ↔ t ∈ l := by
  induction l with
  | nil => simp [uniq]
  | cons s rest ih =>
    simp only [uniq, List.mem_cons, List.mem_filter]
    constructor
    · rintro (h | ⟨hm, _⟩)
      · exact Or.inl h
      · exact Or.inr (ih.mp hm)
    · rintro (h | hm)
      · exact Or.inl h
      · by_cases he : t = s
        · exact Or.inl he
        · exact Or.inr ⟨ih.mpr hm, by simp [he]⟩

theorem uniq_nodup (l : List String) : (uniq l).Nodup := by
  induction l with
  | nil => simp [uniq]
  | cons s rest ih =>
    rw [uniq, List.nodup_cons]
    constructor
    · intro hmem
      rw [List.mem_filter] at hmem
      have hcontra := hmem.2
      simp at hcontra
    · exact ih.filter _

theorem lookupPrice_eq_none_of_not_mem (m : List (String × ℚ)) (t : String)
    (h : t ∉ m.map Prod.fst) : lookupPrice m t = none := by
  rw [lookupPrice]
  rw [List.find?_eq_none.mpr]
  · rfl
  · intro e he
    simp only [decide_eq_true_eq]
    intro het
    exact h (het ▸ List.mem_map_of_mem Prod.fst he)

theorem lookupPrice_filterMap (f : String → Option ℚ) :
    ∀ (l : List String) (t : String),
      lookupPrice (l.filterMap (fun s => (f s).map (fun p => (s, p)))) t =
        if t ∈ l then f t else none := by
  intro l
  induction l with
  | nil => intro t; simp [lookupPrice]
  | cons s rest ih =>
    intro t
    cases hfs : f s with
    | none =>
      simp only [List.filterMap_cons, hfs, Option.map_none']
      rw [ih t]
      by_cases hts : t = s
      · subst hts
        by_cases htr : t ∈ rest
        · simp [htr, hfs]
        · simp [htr, hfs]
      · simp [List.mem_cons, hts]
    | some p =>
      by_cases hts : s = t
      · subst hts
        simp [List.filterMap_cons, hfs, lookupPrice]
      · have hts' : ¬t = s := fun h => hts h.symm
        simp only [List.filterMap_cons, hfs, Option.map_some']
        have h1 : lookupPrice
            ((s, p) :: rest.filterMap (fun s => (f s).map (fun p => (s, p)))) t =
            lookupPrice (rest.filterMap (fun s => (f s).map (fun p => (s, p)))) t := by
          simp [lookupPrice, hts]
        rw [h1, ih t]
        simp [List.mem_cons, hts']

theorem lookupPrice_foldl_md (md : List MarketDataPoint) :
    ∀ (m : List (String × ℚ)) (t : String),
      (md.map (fun dp => dp.ticker)).Nodup →
      lookupPrice (md.foldl (fun acc dp => setEntry acc dp.ticker dp.price) m) t =
        (match md.find? (fun dp => dp.ticker = t) with
          | some dp => some dp.price
          | none => lookupPrice m t) := by
  induction md with
  | nil => intro m t _; simp
  | cons dp rest ih =>
    intro m t hnd
    simp only [List.map_cons, List.nodup_cons] at hnd
    simp only [List.foldl_cons]
    by_cases hdt : dp.ticker = t
    · rw [List.find?_cons_of_pos _ (by simp [hdt])]
      rw [ih _ t hnd.2]
      have hnone : rest.find? (fun x => x.ticker = t) = none := by
        rw [List.find?_eq_none]
        intro x hx
        simp only [decide_eq_true_eq]
        intro hxt
        refine hnd.1 ?_
        rw [hdt, ← hxt]
        exact List.mem_map_of_mem (fun q => q.ticker) hx
      rw [hnone, ← hdt]
      exact lookupPrice_setEntry_self m dp.ticker dp.price
    · rw [List.find?_cons_of_neg _ (by simp [hdt])]
      rw [ih _ t hnd.2]
      cases hfind : rest.find? (fun x => x.ticker = t) with
      | some x => rfl
      | none =>
        exact lookupPrice_setEntry_other m dp.ticker t dp.price
          (fun h => hdt h.symm)

theorem lookupPrice_foldl_pairs (entries : List (String × ℚ)) :
    ∀ (m : List (String × ℚ)) (t : String),
      (entries.map Prod.fst).Nodup →
      lookupPrice (entries.foldl (fun acc e => setEntry acc e.1 e.2) m) t =
        (match lookupPrice entries t with
          | some v => some v
          | none => lookupPrice m t) := by
  induction entries with
  | nil => intro m t _; simp [lookupPrice]
  | cons e rest ih =>
    intro m t hnd
    simp only [List.map_cons, List.nodup_cons] at hnd
    simp only [List.foldl_cons]
    by_cases het : e.1 = t
    · have hhead : lookupPrice (e :: rest) t = some e.2 := by
        simp [lookupPrice, het]
      rw [hhead, ih _ t hnd.2]
      have hnone : lookupPrice rest t = none := by
        refine lookupPrice_eq_none_of_not_mem rest t ?_
        rw [← het]
        exact hnd.1
      rw [hnone, ← het]
      exact lookupPrice_setEntry_self m e.1 e.2
    · have hhead : lookupPrice (e :: rest) t = lookupPrice rest t := by
        simp [lookupPrice, het]
      rw [hhead, ih _ t hnd.2]
      cases hfind : lookupPrice rest t with
      | some v => rfl
      | none =>
        exact lookupPrice_setEntry_other m e.1 t e.2 (fun h => het h.symm)

theorem filterMap_keys (f : String → Option ℚ) (l : List String) :
    (l.filterMap (fun s => (f s).map (fun p => (s, p)))).map Prod.fst =
      l.filter (fun s => (f s).isSome) := by
  induction l with
  | nil => simp
  | cons s rest ih =>
    cases hfs : f s with
    | none => simpa [List.filterMap_cons, hfs] using ih
    | some p => simpa [List.filterMap_cons, hfs] using ih

theorem lookupPrice_resolvedFromCache (env : PriceEnv) (U : List String)
    (x : String) :
    lookupPrice (resolvedFromCache env U) x =
      if x ∈ U then lookupPrice env.cache x else none := by
  rw [resolvedFromCache]
  exact lookupPrice_filterMap (fun s => lookupPrice env.cache s) U x

theorem lookupPrice_resolvedAfterFetch_hit (env : PriceEnv)
    (U : List String) (t : String) (p : ℚ)
    (ht : t ∈ U) (hc : lookupPrice env.cache t = some p)
    (hfetch : ∀ md, env.fetch = .ok md →
      (md.map (fun dp => dp.ticker)).Nodup ∧
      ∀ dp ∈ md, lookupPrice env.cache dp.ticker = none) :
    lookupPrice (resolvedAfterFetch env U) t = some p := by
  rw [resolvedAfterFetch]
  by_cases hm : (missingTickers env U).isEmpty
  · rw [if_pos hm, lookupPrice_resolvedFromCache, if_pos ht]
    exact hc
  · rw [if_neg hm]
    cases hf : env.fetch with
    | error e =>
      rw [lookupPrice_resolvedFromCache, if_pos ht]
      exact hc
    | ok md =>
      obtain ⟨hnd, hcnone⟩ := hfetch md hf
      rw [lookupPrice_foldl_md md _ t hnd]
      have hfind : md.find? (fun dp => dp.ticker = t) = none := by
        rw [List.find?_eq_none]
        intro dp hdp
        simp only [decide_eq_true_eq]
        intro hdt
        have hcn := hcnone dp hdp
        rw [hdt, hc] at hcn
        cases hcn
      rw [hfind, lookupPrice_resolvedFromCache, if_pos ht]
      exact hc

theorem lookupPrice_resolvedAfterFetch_miss_ok (env : PriceEnv)
    (U : List String) (t : String) (md : List MarketDataPoint)
    (hf : env.fetch = .ok md) (ht : t ∈ U)
    (hc : lookupPrice env.cache t = none)
    (hnd : (md.map (fun dp => dp.ticker)).Nodup) :
    lookupPrice (resolvedAfterFetch env U) t =
      (md.find? (fun dp => dp.ticker = t)).map (fun dp => dp.price) := by
  have htm : t ∈ missingTickers env U := by
    rw [missingTickers, List.mem_filter]
    exact ⟨ht, by rw [hc]; rfl⟩
  have hm : (missingTickers env U).isEmpty = false := by
    cases hmm : missingTickers env U with
    | nil => rw [hmm] at htm; cases htm
    | cons a l => rfl
  rw [resolvedAfterFetch]
  simp only [hm, Bool.false_eq_true, if_false, hf]
  rw [lookupPrice_foldl_md md _ t hnd]
  cases hfind : md.find? (fun dp => dp.ticker = t) with
  | some dp => simp
  | none =>
    rw [lookupPrice_resolvedFromCache, if_pos ht, hc]
    simp

theorem lookupPrice_resolvedAfterFetch_miss_err (env : PriceEnv)
    (U : List String) (t : String) (e : String)
    (hf : env.fetch = .error e) (ht : t ∈ U)
    (hc : lookupPrice env.cache t = none) :
    lookupPrice (resolvedAfterFetch env U) t = none := by
  rw [resolvedAfterFetch]
  by_cases hm : (missingTickers env U).isEmpty
  · rw [if_pos hm, lookupPrice_resolvedFromCache, if_pos ht]
    exact hc
  · rw [if_neg hm]
    simp only [hf]
    rw [lookupPrice_resolvedFromCache, if_pos ht]
    exact hc

theorem resolvePriceMap_chain (env : PriceEnv) (tickers : List String)
    (hfetch : ∀ md, env.fetch = .ok md →
      (md.map (fun dp => dp.ticker)).Nodup ∧
      ∀ dp ∈ md, lookupPrice env.cache dp.ticker = none) :
    ∀ t ∈ tickers,
      lookupPrice (resolvePriceMap env tickers) t = chainPrice env t := by
  intro t ht
  have hne : tickers.isEmpty = false := by
    cases tickers with
    | nil => cases ht
    | cons a l => rfl
  have htU : t ∈ uniq tickers := (mem_uniq tickers t).mpr ht
  have hUnodup : (uniq tickers).Nodup := uniq_nodup tickers
  have hSMnodup : (stillMissingTickers env (uniq tickers)).Nodup := by
    rw [stillMissingTickers, missingTickers]
    exact (hUnodup.filter _).filter _
  have hCPnodup : (((stillMissingTickers env (uniq tickers)).filterMap
      (fun s => (env.persisted s).map (fun p => (s, p)))).map Prod.fst).Nodup := by
    rw [filterMap_keys]
    exact hSMnodup.filter _
  have hfinal : lookupPrice (resolvePriceMap env tickers) t =
      (match lookupPrice ((stillMissingTickers env (uniq tickers)).filterMap
          (fun s => (env.persisted s).map (fun p => (s, p)))) t with
        | some v => some v
        | none => lookupPrice (resolvedAfterFetch env (uniq tickers)) t) := by
    rw [resolvePriceMap]
    simp only [hne, Bool.false_eq_true, if_false]
    exact lookupPrice_foldl_pairs _ _ t hCPnodup
  have hCP : lookupPrice ((stillMissingTickers env (uniq tickers)).filterMap
      (fun s => (env.persisted s).map (fun p => (s, p)))) t =
      if t ∈ stillMissingTickers env (uniq tickers) then env.persisted t
      else none :=
    lookupPrice_filterMap env.persisted _ t
  cases hc : lookupPrice env.cache t with
  | some p =>
    have h2 := lookupPrice_resolvedAfterFetch_hit env (uniq tickers) t p htU hc hfetch
    have hnotSM : t ∉ stillMissingTickers env (uniq tickers) := by
      rw [stillMissingTickers, List.mem_filter]
      rintro ⟨-, hmiss⟩
      rw [h2] at hmiss
      simp at hmiss
    rw [hfinal, hCP, if_neg hnotSM, h2]
    simp [chainPrice, hc]
  | none =>
    cases hf : env.fetch with
    | ok md =>
      have h2 := lookupPrice_resolvedAfterFetch_miss_ok env (uniq tickers) t md
        hf htU hc (hfetch md hf).1
      cases hfind : md.find? (fun dp => dp.ticker = t) with
      | some dp =>
        rw [hfind, Option.map_some'] at h2
        have hnotSM : t ∉ stillMissingTickers env (uniq tickers) := by
          rw [stillMissingTickers, List.mem_filter]
          rintro ⟨-, hmiss⟩
          rw [h2] at hmiss
          simp at hmiss
        rw [hfinal, hCP, if_neg hnotSM, h2]
        simp [chainPrice, hc, hf, hfind]
      | none =>
        rw [hfind, Option.map_none'] at h2
        have htSM : t ∈ stillMissingTickers env (uniq tickers) := by
          rw [stillMissingTickers, List.mem_filter]
          refine ⟨?_, by rw [h2]; rfl⟩
          rw [missingTickers, List.mem_filter]
          exact ⟨htU, by rw [hc]; rfl⟩
        rw [hfinal, hCP, if_pos htSM]
        cases hp : env.persisted t with
        | some q => simp [chainPrice, hc, hf, hfind, hp]
        | none => simp [chainPrice, hc, hf, hfind, hp, h2]
    | error e =>
      have h2 := lookupPrice_resolvedAfterFetch_miss_err env (uniq tickers) t e
        hf htU hc
      have htSM : t ∈ stillMissingTickers env (uniq tickers) := by
        rw [stillMissingTickers, List.mem_filter]
        refine ⟨?_, by rw [h2]; rfl⟩
        rw [missingTickers, List.mem_filter]
        exact ⟨htU, by rw [hc]; rfl⟩
      rw [hfinal, hCP, if_pos htSM]
      cases hp : env.persisted t with
      | some q => simp [chainPrice, hc, hf, hp]
      | none => simp [chainPrice, hc, hf, hp, h2]

theorem foldl_price_sum (priceMap : List (String × ℚ)) :
    ∀ (positions : List Position) (acc : ℚ),
      (∀ pos ∈ positions, (lookupPrice priceMap pos.ticker).isSome) →
      positions.foldl
        (fun acc pos =>
          match lookupPrice priceMap pos.ticker with
          | some currentPrice => acc + currentPrice * (pos.shares : ℚ)
          | none => acc) acc =
      acc + (positions.map
        (fun pos =>
          (lookupPrice priceMap pos.ticker).getD 0 * (pos.shares : ℚ))).sum := by
  intro positions
  induction positions with
  | nil => intro acc _; simp
  | cons pos rest ih =>
    intro acc hall
    simp only [List.foldl_cons, List.map_cons, List.sum_cons]
    obtain ⟨p, hp⟩ := Option.isSome_iff_exists.mp
      (hall pos (List.mem_cons_self _ _))
    rw [hp]
    rw [ih _ (fun q hq => hall q (List.mem_cons_of_mem _ hq))]
    simp only [Option.getD_some]
    ring

/-- C7: at any valuation snapshot, the recorded total value equals the
cash balance plus the sum over all positions of shares times the
current price, each position's price resolved through the chain
in-memory cache → live market-data fetch → last-known persisted price
(`chainPrice`, written from the spec's words; the second conjunct shows
`resolvePriceMap` refines it).  Hypotheses: the live fetch returns at
most one quote per ticker and only for tickers that missed the cache
(the `getMarketData(missing)` contract), and every position's ticker
resolves to some price through the chain. -/
theorem valuation_snapshot_total (env : PriceEnv) (pf : Portfolio)
    (hfetch : ∀ md, env.fetch = .ok md →
      (md.map (fun dp => dp.ticker)).Nodup ∧
      ∀ dp ∈ md, lookupPrice env.cache dp.ticker = none)
    (hresolve : ∀ pos ∈ pf.positions, (chainPrice env pos.ticker).isSome) :
    (calculateTotalValue env pf).totalValue =
      pf.cashBalance +
        (pf.positions.map
          (fun pos => (chainPrice env pos.ticker).getD 0 * (pos.shares : ℚ))).sum ∧
    (∀ t ∈ pf.positions.map (fun p => p.ticker),
      lookupPrice (resolvePriceMap env (pf.positions.map (fun p => p.ticker))) t =
        chainPrice env t) := by
  have hchain := resolvePriceMap_chain env
    (pf.positions.map (fun p => p.ticker)) hfetch
  refine ⟨?_, hchain⟩
  by_cases hemp : pf.positions.isEmpty
  · have hnil : pf.positions = [] := by
      cases hh : pf.positions with
      | nil => rfl
      | cons a l => rw [hh] at hemp; cases hemp
    simp [calculateTotalValue, hemp, hnil]
  · simp only [calculateTotalValue, hemp, Bool.false_eq_true, if_false]
    have hallsome : ∀ pos ∈ pf.positions,
        (lookupPrice (resolvePriceMap env
          (pf.positions.map (fun p => p.ticker))) pos.ticker).isSome := by
      intro pos hq
      rw [hchain pos.ticker (List.mem_map_of_mem _ hq)]
      exact hresolve pos hq
    rw [foldl_price_sum _ _ 0 hallsome, zero_add]
    have hmap : pf.positions.map
        (fun pos => (lookupPrice (resolvePriceMap env
          (pf.positions.map (fun p => p.ticker))) pos.ticker).getD 0 *
          (pos.shares : ℚ)) =
        pf.positions.map
          (fun pos => (chainPrice env pos.ticker).getD 0 * (pos.shares : ℚ)) := by
      refine List.map_congr_left ?_
      intro pos hq
      rw [hchain pos.ticker (List.mem_map_of_mem _ hq)]
    rw [hmap]

/-- Witness for C7: a portfolio priced through all three links of the
chain — ticker A from the cache, B from the live fetch, C from the
last-known persisted price — values to
`100 + 10*1 + 20*2 + 30*3 = 240`. -/
theorem valuation_snapshot_total_witness :
    (calculateTotalValue
      { cache := [("A", 10)],
        fetch := .ok [{ ticker := "B", price := 20 }],
        persisted := fun t => if t = "C" then some 30 else none }
      { cashBalance := 100, initialValue := 100,
        positions := [{ ticker := "A", shares := 1, avgCost := 1 },
                      { ticker := "B", shares := 2, avgCost := 1 },
                      { ticker := "C", shares := 3, avgCost := 1 }] }).totalValue =
      240 := by
  have h := (valuation_snapshot_total
    { cache := [("A", 10)],
      fetch := .ok [{ ticker := "B", price := 20 }],
      persisted := fun t => if t = "C" then some 30 else none }
    { cashBalance := 100, initialValue := 100,
      positions := [{ ticker := "A", shares := 1, avgCost := 1 },
                    { ticker := "B", shares := 2, avgCost := 1 },
                    { ticker := "C", shares := 3, avgCost := 1 }] }
    (by
      intro md hmd
      injection hmd with h
      subst h
      exact ⟨by decide, by decide⟩)
    (by decide)).1
  rw [h]
  simp [chainPrice, lookupPrice, List.find?]
  norm_num

/-- JSON values as produced by `JSON.parse` (numbers as rationals).
The markdown/JSON extraction and `JSON.parse` step of
`parseTradeDecision` either throws or yields such a value; the parsed
value is the input of the embedded schema validation. -/
inductive Json
  | null
  | bool (b : Bool)
  | num (q : ℚ)
  | str (s : String)
  | arr (elements : List Json)
  | obj (fields : List (String × Json))
deriving Repr

/-- Field lookup in a parsed JSON object. -/
def jsonLookup (fields : List (String × Json)) (k : String) : Option Json :=
  (fields.find? (fun f => f.1 = k)).map (fun f => f.2)

/-- `z.enum(['BUY', 'SELL', 'HOLD'])`. -/
def parseActionField : Json → Option TradeAction
  | .str "BUY" => some .BUY
  | .str "SELL" => some .SELL
  | .str "HOLD" => some .HOLD
  | _ => none

/-- `z.string().nullable()`. -/
def parseTickerField : Json → Option (Option String)
  | .null => some none
  | .str s => some (some s)
  | _ => none

/-- `z.number().int()`: a JSON number that is an integer. -/
def jsonInt : Json → Option Int
  | .num q => if q.den = 1 then some q.num else none
  | _ => none

/-- `z.string()`. -/
def parseStringField : Json → Option String
  | .str s => some s
  | _ => none

/-- `TradeDecisionSchema.parse` (the Zod object schema of
lib/types/trading): `action` an enum, `ticker` string-or-null,
`shares` a nonnegative integer number, `reasoning` a string, and
`leverage` an optional integer between 1 and 20; any missing required
key, wrong type or violated bound throws a `ZodError` (the `.error`
case). -/
def zodTradeDecision (j : Json) : Except String TradeDecision :=
  match j with
  | .obj fields =>
    match jsonLookup fields "action" with
    | none => .error "action: Required"
    | some aj =>
      match parseActionField aj with
      | none => .error "action: invalid enum value"
      | some action =>
        match jsonLookup fields "ticker" with
        | none => .error "ticker: Required"
        | some tj =>
          match parseTickerField tj with
          | none => .error "ticker: expected string or null"
          | some ticker =>
            match jsonLookup fields "shares" with
            | none => .error "shares: Required"
            | some sj =>
              match jsonInt sj with
              | none => .error "shares: expected integer"
              | some shares =>
                if shares < 0 then .error "shares: expected nonnegative"
                else
                  match jsonLookup fields "reasoning" with
                  | none => .error "reasoning: Required"
                  | some rj =>
                    match parseStringField rj with
                    | none => .error "reasoning: expected string"
                    | some reasoning =>
                      match jsonLookup fields "leverage" with
                      | none =>
                        .ok { action := action, ticker := ticker,
                              shares := shares, reasoning := reasoning,
                              leverage := none }
                      | some lj =>
                        match jsonInt lj with
                        | none => .error "leverage: expected integer"
                        | some lev =>
                          if lev < 1 then .error "leverage: too small"
                          else if 20 < lev then .error "leverage: too large"
                          else
                            .ok { action := action, ticker := ticker,
                                  shares := shares, reasoning := reasoning,
                                  leverage := some lev }
  | _ => .error "expected object"

/-- `parseTradeDecision` (response-parser.ts lines 4-32) from the
parsed JSON value on: validate against `TradeDecisionSchema` and
default the leverage — `return { ...result, leverage: result.leverage
?? 1 }` — rethrowing a schema failure as an error. -/
def parseTradeDecisionJson (j : Json) : Except String TradeDecision :=
  match zodTradeDecision j with
  | .error e => .error e
  | .ok result => .ok { result with leverage := some (result.leverage.getD 1) }

theorem zodTradeDecision_ok (j : Json) (d : TradeDecision)
    (h : zodTradeDecision j = .ok d) :
    0 ≤ d.shares ∧
    (∀ v, d.leverage = some v → 1 ≤ v ∧ v ≤ 20) ∧
    (∀ fields, j = .obj fields → jsonLookup fields "leverage" = none →
      d.leverage = none) := by
  cases j with
  | null => simp [zodTradeDecision] at h
  | bool b => simp [zodTradeDecision] at h
  | num q => simp [zodTradeDecision] at h
  | str s => simp [zodTradeDecision] at h
  | arr xs => simp [zodTradeDecision] at h
  | obj fields =>
    simp only [zodTradeDecision] at h
    repeat' split at h
    all_goals try simp at h
    · subst h
      refine ⟨by simp only; omega, ?_, ?_⟩
      · intro v hv
        simp at hv
      · intro fields' hf hnone
        rfl
    · subst h
      refine ⟨by simp only; omega, ?_, ?_⟩
      · intro v hv
        simp only [Option.some.injEq] at hv
        subst hv
        omega
      · intro fields' hf hnone
        injection hf with hf
        subst hf
        simp_all

/-- C10: from the parsed JSON value on, the response parser either
throws or returns a decision whose action is one of BUY/SELL/HOLD,
whose ticker is a string or null (enforced by the `TradeDecision`
type), whose shares is a non-negative integer, and whose leverage is an
integer between 1 and 20 inclusive, defaulting to 1 when the response
omits the field. -/
theorem parser_output_well_shaped (j : Json) :
    (∃ e, parseTradeDecisionJson j = .error e) ∨
    (∃ d, parseTradeDecisionJson j = .ok d ∧
      (d.action = .BUY ∨ d.action = .SELL ∨ d.action = .HOLD) ∧
      0 ≤ d.shares ∧
      (∃ v, d.leverage = some v ∧ 1 ≤ v ∧ v ≤ 20) ∧
      (∀ fields, j = .obj fields → jsonLookup fields "leverage" = none →
        d.leverage = some 1)) := by
  cases hz : zodTradeDecision j with
  | error e =>
    exact Or.inl ⟨e, by simp [parseTradeDecisionJson, hz]⟩
  | ok r =>
    obtain ⟨hsh, hlev, habs⟩ := zodTradeDecision_ok j r hz
    refine Or.inr ⟨{ r with leverage := some (r.leverage.getD 1) },
      by simp [parseTradeDecisionJson, hz], ?_, ?_, ?_, ?_⟩
    · cases hra : r.action with
      | BUY => exact Or.inl rfl
      | SELL => exact Or.inr (Or.inl rfl)
      | HOLD => exact Or.inr (Or.inr rfl)
    · exact hsh
    · cases hl : r.leverage with
      | none => exact ⟨1, by simp [hl], by norm_num, by norm_num⟩
      | some v =>
        obtain ⟨h1, h2⟩ := hlev v hl
        exact ⟨v, by simp [hl], h1, h2⟩
    · intro fields hf hnone
      have hn := habs fields hf hnone
      simp [hn]

end Apex
